import Mathlib

/-!
Verification of the UltraSub subtitle-translation orchestration core.

The definitions below are shallow embeddings of the Python source:

* `parse_batch_translation_result` embeds `src/funcs.py`,
  `parse_batch_translation_result` (the Response Reconciler);
* `format_translation_prompt_with_context` embeds `src/funcs.py`,
  `format_translation_prompt_with_context` (the Context Batcher);
* `batch_starts` embeds the loop `for i in range(0, total_subtitles,
  batch_size)` in `translate_subtitle.py`;
* `retry_go` / `retry_on_failure` embed `src/decorators.py`,
  `retry_on_failure`;
* `execute_task` embeds `src/tasks.py`, `TaskManager._execute_task`;
* `get_result_loop` embeds the polling loop of `src/tasks.py`,
  `TaskManager.get_result`;
* `SemStep` / `SemReachable` embed the `asyncio.Semaphore` admission gate
  of `TaskManager`.

Machine-level details that the claims do not touch (logging, the exact
prompt string, the HTTP client) are omitted; where a remote interaction is
needed its outcome is passed in as an explicit value.
-/

/-- One parsed subtitle line, as produced by `read_srt_file`:
a dict with keys `number`, `timestamp`, `text`. -/
structure Subtitle where
  number : Int
  timestamp : String
  text : String
deriving Repr, DecidableEq, Inhabited

/-- One entry of the JSON list the model is asked to return:
a dict with keys `编号` (line number) and `译文` (translated text). -/
structure TransPair where
  number : Int
  text : String
deriving Repr, DecidableEq, Inhabited

/-- One per-line result tuple `(translation_text, reasoning, usage)` as
returned by `parse_batch_translation_result` (reasoning and usage are
always `None` on this code path, so they are modelled as `Option` fields
that the reconciler leaves empty). -/
structure TranslationResult where
  text : Option String
  reasoning : Option String
  usage : Option String
deriving Repr, DecidableEq, Inhabited

/-- The batch-wide fallback marker `(None, None, None)`. -/
def noneResult : TranslationResult := ⟨none, none, none⟩

/-- Lookup in the Python dict comprehension
`translation_map = {item["编号"]: item["译文"] for item in translations}`:
when the same number occurs twice, the later binding wins, exactly as in a
Python dict built left to right. -/
def translation_map : List TransPair → Int → Option String
  | [], _ => none
  | item :: rest, n =>
      match translation_map rest n with
      | some v => some v
      | none => if item.number = n then some item.text else none

/-- Embedding of `src/funcs.py`, `parse_batch_translation_result`.

The Python function first runs `re.search(r'\[.*\]', result, re.DOTALL)`
on the raw response and `json.loads` on the match.  That extraction stage
is represented here by the `translations?` argument: `some translations`
is a raw response in which a JSON list of number/translation pairs was
located and deserialized; `none` is a raw response in which no list could
be located or deserialization failed (the `except` path).

On success the function walks `range(start_index, end_index)` with
`end_index = min(start_index + batch_size, len(subtitles))`, emitting the
looked-up translation when the line's number is a key of the map and the
line's original source text otherwise.  On failure it emits the
`(None, None, None)` marker once per line of the same range. -/
def parse_batch_translation_result (translations? : Option (List TransPair))
    (subtitles : List Subtitle) (start_index : Nat) (batch_size : Nat) :
    List TranslationResult :=
  match translations? with
  | some translations =>
      let end_index := min (start_index + batch_size) subtitles.length
      (List.range' start_index (end_index - start_index)).map (fun i =>
        let subtitle := subtitles.getD i default
        match translation_map translations subtitle.number with
        | some t => ⟨some t, none, none⟩
        | none => ⟨some subtitle.text, none, none⟩)
  | none =>
      let end_index := min (start_index + batch_size) subtitles.length
      (List.range' start_index (end_index - start_index)).map (fun _ => noneResult)

/-- The items of the batch that starts at `start_index`: the slice
`subtitles[start_index : min(start_index + batch_size, len(subtitles))]`.
This is the `batch.items` sequence the reconciled results must align
with. -/
def batch_items (subtitles : List Subtitle) (start_index batch_size : Nat) :
    List Subtitle :=
  (subtitles.drop start_index).take
    (min (start_index + batch_size) subtitles.length - start_index)

/-- Outcome of one invocation of the wrapped operation, as seen by the
`retry_on_failure` wrapper in `src/decorators.py`:

* `ok v` — the call returned a value that is not `None`;
* `nil` — the call returned `None` (the wrapper then raises a
  `ValueError`, which the default retryable set `(Exception,)` catches,
  so it behaves as a caught failure);
* `exn` — the call raised an exception from the retryable set.

The decorator's only use in this repository keeps the default
`exceptions=(Exception,)`, so every raised error (including the synthetic
`ValueError` for a `None` result) is caught by the `except` clause. -/
inductive CallOutcome (α : Type) where
  | ok (v : α)
  | nil
  | exn
deriving Repr, DecidableEq

/-- Whether the invocation returned a usable (non-`None`) value. -/
def CallOutcome.isOk {α : Type} : CallOutcome α → Bool
  | .ok _ => true
  | .nil => false
  | .exn => false

/-- Observable trace of one call of the retry wrapper: the returned value
(`none` models the wrapper returning Python `None`), the list of back-off
delays passed to `time.sleep` in order, and the number of times the
wrapped operation was invoked. -/
structure RetryTrace (α : Type) where
  result : Option α
  sleeps : List ℚ
  calls : Nat
deriving Repr, DecidableEq

/-- The `for attempt in range(max_retries + 1)` loop of
`retry_on_failure` in `src/decorators.py`.  `f attempt` is the outcome of
the operation on its `attempt`-th invocation; `fuel` is the number of loop
iterations left, `current_delay` the mutable delay variable, `sleeps` the
delays slept so far (most recent first), `calls` the invocations so far.
On a failure at `attempt == max_retries` the wrapper logs and returns
`None`; on an earlier failure it sleeps `current_delay`, multiplies the
delay by `backoff_factor` and continues. -/
def retry_go {α : Type} (f : Nat → CallOutcome α) (max_retries : Nat)
    (backoff_factor : ℚ) :
    Nat → Nat → ℚ → List ℚ → Nat → RetryTrace α
  | 0, _, _, sleeps, calls => ⟨none, sleeps.reverse, calls⟩
  | fuel + 1, attempt, current_delay, sleeps, calls =>
      match f attempt with
      | .ok v => ⟨some v, sleeps.reverse, calls + 1⟩
      | _ =>
          if attempt = max_retries then ⟨none, sleeps.reverse, calls + 1⟩
          else retry_go f max_retries backoff_factor fuel (attempt + 1)
            (current_delay * backoff_factor) (current_delay :: sleeps) (calls + 1)

/-- Embedding of `src/decorators.py`, `retry_on_failure`: one call of the
synchronous wrapper around an operation whose successive invocation
outcomes are given by `f`. -/
def retry_on_failure {α : Type} (max_retries : Nat) (delay backoff_factor : ℚ)
    (f : Nat → CallOutcome α) : RetryTrace α :=
  retry_go f max_retries backoff_factor (max_retries + 1) 0 delay [] 0

/-- A coroutine object, as returned by calling (not awaiting) an
`async def` function: the value it wraps is the outcome eventually
observed by whoever awaits it — either a result or a raised exception. -/
def Coroutine (α : Type) : Type := Except String α

/-- Calling a coroutine function such as
`TranslationModel.chat_completion`'s underlying `async def` from
synchronous code returns the coroutine object immediately: it never
raises at call time and is never `None`, whatever awaiting it would later
do. -/
def call_coroutine_function {α : Type} (co : Coroutine α) :
    CallOutcome (Coroutine α) :=
  .ok co

/-- Fueled evaluation of Python `range(start, stop, step)` over naturals:
emits `start` and advances by `step` while `start < stop`.  One unit of
fuel per emitted element; since the callers use `step ≥ 1`, fuel
`stop - start` always suffices. -/
def pyRangeStepAux : Nat → Nat → Nat → Nat → List Nat
  | 0, _, _, _ => []
  | fuel + 1, start, stop, step =>
      if start < stop then start :: pyRangeStepAux fuel (start + step) stop step
      else []

/-- Python `range(start, stop, step)`. -/
def pyRange3 (start stop step : Nat) : List Nat :=
  pyRangeStepAux (stop - start) start stop step

/-- The batch start indices produced by
`for i in range(0, total_subtitles, batch_size)` in
`translate_subtitle.py`. -/
def batch_starts (total batch_size : Nat) : List Nat :=
  pyRange3 0 total batch_size

/-- The half-open index range of the batch starting at `s`: its length is
`min(s + batch_size, total) - s`, matching
`end_index = min(start_index + batch_size, len(subtitles))` in
`format_translation_prompt_with_context`. -/
def batch_index_range (total batch_size s : Nat) : List Nat :=
  List.range' s (min (s + batch_size) total - s)

/-- One entry of the `当前批次` list built by
`format_translation_prompt_with_context`: the line's `编号` and `文本`. -/
structure BatchItem where
  number : Int
  text : String
deriving Repr, DecidableEq, Inhabited

/-- The context dictionary assembled by
`format_translation_prompt_with_context` before it is stringified into
the prompt: `上文` and `下文` as the lists of neighbouring line texts
(the Python code then joins them with a dash separator), and the current
batch. -/
structure ContextPrompt where
  context_before : List String
  current_batch : List BatchItem
  context_after : List String
deriving Repr, DecidableEq, Inhabited

/-- Embedding of `src/funcs.py`, `format_translation_prompt_with_context`:
`end_index = min(start_index + batch_size, len(subtitles))`;
`context_before` collects `subtitles[i]['text']` for
`i in range(max(0, start_index - 2), start_index)`; `context_after`
collects it for `i in range(end_index, min(len(subtitles), end_index + 2))`;
the current batch collects number and text for
`i in range(start_index, end_index)`. -/
def format_translation_prompt_with_context (subtitles : List Subtitle)
    (start_index : Nat) (batch_size : Nat) : ContextPrompt :=
  let end_index := min (start_index + batch_size) subtitles.length
  let before_start := (max 0 ((start_index : Int) - 2)).toNat
  let context_before := (List.range' before_start (start_index - before_start)).map
    (fun i => (subtitles.getD i default).text)
  let context_after :=
    (List.range' end_index (min subtitles.length (end_index + 2) - end_index)).map
      (fun i => (subtitles.getD i default).text)
  let current_batch := (List.range' start_index (end_index - start_index)).map
    (fun i => BatchItem.mk (subtitles.getD i default).number
      (subtitles.getD i default).text)
  ⟨context_before, current_batch, context_after⟩

/-- A concrete five-line subtitle file used to instantiate theorems. -/
def sampleSubtitles : List Subtitle :=
  [⟨1, "t1", "a"⟩, ⟨2, "t2", "b"⟩, ⟨3, "t3", "c"⟩, ⟨4, "t4", "d"⟩, ⟨5, "t5", "e"⟩]

/-- A concrete successful payload used to instantiate theorems. -/
def okText : String := "ok"

/-- A concrete exception message used to instantiate theorems. -/
def boomText : String := "boom"

/-- Another concrete exception message used to instantiate theorems. -/
def oopsText : String := "oops"

/-- The observable state of one submitted task together with the
semaphore of its `TaskManager`: `free` is the number of available
admission slots, and `result`, `error`, `completed` are the fields of the
`Task` dataclass in `src/tasks.py` (initialised to `None`, `None`,
`False` on submission). -/
structure ExecState (α ε : Type) where
  free : Nat
  result : Option α
  error : Option ε
  completed : Bool
deriving Repr, DecidableEq

/-- Embedding of `src/tasks.py`, `TaskManager._execute_task`, for one
admitted task whose awaited body finishes with `outcome`.

The statement `async with self.semaphore:` acquires one slot before
running the body and — because its exit handler runs even when the block
raises — releases it again on both exit paths.  The `try/except/finally`
in the source is commented out, so on an exception the two assignments
`task.result = result; task.completed = True` are skipped, `task.error`
is never populated, and the exception propagates into the wrapping
`asyncio.create_task` (first component of the returned pair). -/
def execute_task {α ε : Type} (outcome : Except ε α) (s : ExecState α ε) :
    Except ε Unit × ExecState α ε :=
  let acquired : ExecState α ε := { s with free := s.free - 1 }
  match outcome with
  | .ok v =>
      (.ok (),
        { acquired with
            result := some v
            completed := true
            free := acquired.free + 1 })
  | .error e => (.error e, { acquired with free := acquired.free + 1 })

/-- How one call of `TaskManager.get_result` returns: `timedOut` models
`return None` from the timeout branch, `gotTask` models `return task`. -/
inductive PollOutcome where
  | timedOut
  | gotTask
deriving Repr, DecidableEq

/-- The polling interval `asyncio.sleep(0.1)` of `get_result`. -/
def pollInterval : ℚ := 1 / 10

/-- The guard `if timeout and (self.loop.time() - start_time) > timeout`
of `get_result`: Python treats both `None` and `0` as falsy, so those
values never trigger the timeout branch. -/
def timeout_triggered (timeout : Option ℚ) (elapsed : ℚ) : Bool :=
  match timeout with
  | none => false
  | some t => if t = 0 then false else decide (t < elapsed)

/-- Embedding of the `while not task.completed:` loop of
`src/tasks.py`, `TaskManager.get_result`.  `completedAt k` is the value
of `task.completed` at the loop's `k`-th check (the elapsed time there
is `k` poll intervals); `fuel` bounds how many checks we observe.
`some timedOut` and `some gotTask` are the two returns; `none` means the
loop is still polling after `fuel` checks — a loop that yields `none`
for every `fuel` never returns. -/
def get_result_loop (completedAt : Nat → Bool) (timeout : Option ℚ) :
    Nat → Nat → Option PollOutcome
  | 0, _ => none
  | fuel + 1, k =>
      if completedAt k then some .gotTask
      else if timeout_triggered timeout ((k : ℚ) * pollInterval) then some .timedOut
      else get_result_loop completedAt timeout fuel (k + 1)

/-- The observable state of the `asyncio.Semaphore(max_workers)`
admission gate: `free` available slots and `running` operation bodies
currently executing inside the gate. -/
structure SemState where
  free : Nat
  running : Nat
deriving Repr, DecidableEq

/-- One transition of the admission gate: a queued operation may enter
(acquire) only when a slot is free — the acquire happens immediately
before the operation's body runs — and a running operation leaving the
`async with` block releases its slot. -/
inductive SemStep : SemState → SemState → Prop
  | acquire (s : SemState) (h : 0 < s.free) : SemStep s ⟨s.free - 1, s.running + 1⟩
  | release (s : SemState) (h : 0 < s.running) : SemStep s ⟨s.free + 1, s.running - 1⟩

/-- The gate as initialised by `TaskManager.__init__`:
`asyncio.Semaphore(max_workers)` with no body running. -/
def semInit (N : Nat) : SemState := ⟨N, 0⟩

/-- States the admission gate can reach from its initial state by any
interleaving of admissions and completions. -/
def SemReachable (N : Nat) (s : SemState) : Prop :=
  Relation.ReflTransGen SemStep (semInit N) s

/-- Mapping a range of indices through a defaulted lookup is the same as
slicing, as long as every index of the range is in bounds. -/
theorem map_range'_getD {α : Type} (l : List α) (d : α) :
    ∀ (n a : Nat), a + n ≤ l.length →
      (List.range' a n).map (fun i => l.getD i d) = (l.drop a).take n := by
  intro n
  induction n with
  | zero => intro a _; simp
  | succ n ih =>
      intro a h
      have ha : a < l.length := by omega
      rw [List.range'_succ, List.map_cons, ih (a + 1) (by omega),
        List.drop_eq_getElem_cons ha, List.take_succ_cons,
        List.getD_eq_getElem l d ha]

/-- C1: on a response whose JSON list was located and deserialized, the
reconciler returns exactly one `TranslationResult` per batch item, in the
order of `batch_items`; an item whose number is a key of the translation
map receives that translation, and an item whose number is absent receives
its own original source text. -/
theorem reconcile_success_one_result_per_item (translations : List TransPair)
    (subtitles : List Subtitle) (start_index batch_size : Nat) :
    parse_batch_translation_result (some translations) subtitles start_index batch_size
      = (batch_items subtitles start_index batch_size).map (fun subtitle =>
          match translation_map translations subtitle.number with
          | some t => ⟨some t, none, none⟩
          | none => ⟨some subtitle.text, none, none⟩)
    ∧ (parse_batch_translation_result (some translations) subtitles start_index batch_size).length
      = (batch_items subtitles start_index batch_size).length := by
  have hmain : parse_batch_translation_result (some translations) subtitles start_index batch_size
      = (batch_items subtitles start_index batch_size).map (fun subtitle =>
          match translation_map translations subtitle.number with
          | some t => ⟨some t, none, none⟩
          | none => ⟨some subtitle.text, none, none⟩) := by
    rcases le_or_lt start_index subtitles.length with hle | hgt
    · calc parse_batch_translation_result (some translations) subtitles start_index batch_size
          = ((List.range' start_index
                (min (start_index + batch_size) subtitles.length - start_index)).map
              (fun i => subtitles.getD i default)).map (fun subtitle =>
                match translation_map translations subtitle.number with
                | some t => ⟨some t, none, none⟩
                | none => ⟨some subtitle.text, none, none⟩) := by
            rw [List.map_map]; rfl
        _ = (batch_items subtitles start_index batch_size).map (fun subtitle =>
                match translation_map translations subtitle.number with
                | some t => ⟨some t, none, none⟩
                | none => ⟨some subtitle.text, none, none⟩) := by
            rw [map_range'_getD subtitles default _ start_index (by omega)]
            rfl
    · have h1 : min (start_index + batch_size) subtitles.length - start_index = 0 := by
        omega
      have h2 : batch_items subtitles start_index batch_size = [] := by
        unfold batch_items
        rw [h1]
        rfl
      rw [h2]
      show (List.range' start_index
        (min (start_index + batch_size) subtitles.length - start_index)).map _ = []
      rw [h1]
      rfl
  exact ⟨hmain, by rw [hmain, List.length_map]⟩

/-- C2: on a response in which no JSON list could be located or it failed
to deserialize, the reconciler still returns one entry per batch item —
same length, same order — and every entry is the `(None, None, None)`
fallback marker (the batch-wide degradation) rather than a copy of the
source text. -/
theorem reconcile_unparsable_batch_fallback (subtitles : List Subtitle)
    (start_index batch_size : Nat) :
    parse_batch_translation_result none subtitles start_index batch_size
      = List.replicate
          (min (start_index + batch_size) subtitles.length - start_index) noneResult
    ∧ (parse_batch_translation_result none subtitles start_index batch_size).length
      = (batch_items subtitles start_index batch_size).length := by
  constructor
  · unfold parse_batch_translation_result
    simp [List.eq_replicate_iff, List.length_range']
  · unfold parse_batch_translation_result batch_items
    simp only [List.length_map, List.length_range', List.length_take,
      List.length_drop]
    omega

/-- Loop invariant for the all-failures case: with `fuel` iterations left
at attempt index `attempt`, every invocation failing, and the fuel exactly
reaching `max_retries`, the loop returns `None` after `fuel` more calls. -/
theorem retry_go_all_fail {α : Type} (f : Nat → CallOutcome α)
    (max_retries : Nat) (backoff_factor : ℚ)
    (hf : ∀ i, (f i).isOk = false) :
    ∀ fuel attempt current_delay sleeps calls, 0 < fuel →
      attempt + fuel = max_retries + 1 →
      (retry_go f max_retries backoff_factor fuel attempt current_delay sleeps calls).result
          = none
      ∧ (retry_go f max_retries backoff_factor fuel attempt current_delay sleeps calls).calls
          = calls + fuel := by
  intro fuel
  induction fuel with
  | zero => intro attempt current_delay sleeps calls h0 _; omega
  | succ fuel ih =>
      intro attempt current_delay sleeps calls _ hsum
      have hfail := hf attempt
      unfold retry_go
      match hout : f attempt with
      | .ok v => rw [hout] at hfail; simp [CallOutcome.isOk] at hfail
      | .nil =>
          by_cases hlast : attempt = max_retries
          · simp [hlast]
            omega
          · have hfuel : 0 < fuel := by omega
            have := ih (attempt + 1) (current_delay * backoff_factor)
              (current_delay :: sleeps) (calls + 1) hfuel (by omega)
            simp [hlast]
            exact ⟨this.1, by omega⟩
      | .exn =>
          by_cases hlast : attempt = max_retries
          · simp [hlast]
            omega
          · have hfuel : 0 < fuel := by omega
            have := ih (attempt + 1) (current_delay * backoff_factor)
              (current_delay :: sleeps) (calls + 1) hfuel (by omega)
            simp [hlast]
            exact ⟨this.1, by omega⟩

/-- C4: if every invocation of the operation either raises a retryable
error or returns `None`, the wrapper with `max_retries = k` invokes the
operation exactly `k + 1` times and then returns `None` — a `None` result
counts as a failure that forces a retry, and the last error is swallowed
rather than propagated (the wrapper returns instead of re-raising). -/
theorem retry_all_failures_returns_none {α : Type} (k : Nat)
    (delay backoff_factor : ℚ) (f : Nat → CallOutcome α)
    (hf : ∀ i, (f i).isOk = false) :
    (retry_on_failure k delay backoff_factor f).result = none
    ∧ (retry_on_failure k delay backoff_factor f).calls = k + 1 := by
  have h := retry_go_all_fail f k backoff_factor hf (k + 1) 0 delay [] 0
    (by omega) (by omega)
  unfold retry_on_failure
  exact ⟨h.1, by rw [h.2]; omega⟩

/-- Witness for C4 at `max_retries = 2` with an operation that always
raises: `None` after exactly 3 invocations. -/
theorem retry_all_failures_returns_none_witness :
    (retry_on_failure 2 1 2 (fun _ => (CallOutcome.exn : CallOutcome String))).result = none
    ∧ (retry_on_failure 2 1 2 (fun _ => (CallOutcome.exn : CallOutcome String))).calls = 3 :=
  retry_all_failures_returns_none 2 1 2 (fun _ => CallOutcome.exn) (fun _ => rfl)

/-- Loop invariant for the eventual-success case: while every attempt
before `m` fails and attempt `m` returns `v`, the loop at attempt index
`attempt ≤ m` — having slept exactly the geometric prefix of delays —
ends with `some v`, the delays `delay * backoff_factor ^ i` for
`i < m`, and `m + 1` invocations. -/
theorem retry_go_eventual_success {α : Type} (f : Nat → CallOutcome α)
    (max_retries m : Nat) (v : α) (delay backoff_factor : ℚ)
    (hfail : ∀ i, i < m → (f i).isOk = false) (hok : f m = .ok v)
    (hm : m ≤ max_retries) :
    ∀ fuel attempt current_delay sleeps calls,
      attempt ≤ m → attempt + fuel = max_retries + 1 →
      current_delay = delay * backoff_factor ^ attempt →
      sleeps = ((List.range attempt).map (fun i => delay * backoff_factor ^ i)).reverse →
      calls = attempt →
      retry_go f max_retries backoff_factor fuel attempt current_delay sleeps calls
        = ⟨some v, (List.range m).map (fun i => delay * backoff_factor ^ i), m + 1⟩ := by
  intro fuel
  induction fuel with
  | zero => intro attempt _ _ _ hattempt hsum _ _ _; omega
  | succ fuel ih =>
      intro attempt current_delay sleeps calls hattempt hsum hdelay hsleeps hcalls
      rcases eq_or_lt_of_le hattempt with heq | hlt
      · subst heq
        unfold retry_go
        rw [hok]
        rw [hsleeps, hcalls, List.reverse_reverse]
      · have hfa := hfail attempt hlt
        have hne : ¬ attempt = max_retries := by omega
        unfold retry_go
        match hout : f attempt with
        | .ok w => rw [hout] at hfa; simp [CallOutcome.isOk] at hfa
        | .nil =>
            simp only [hne, if_false]
            refine ih (attempt + 1) (current_delay * backoff_factor)
              (current_delay :: sleeps) (calls + 1) (by omega) (by omega) ?_ ?_ (by omega)
            · rw [hdelay, pow_succ]; ring
            · rw [hsleeps, hdelay, List.range_succ, List.map_append,
                List.reverse_append]
              rfl
        | .exn =>
            simp only [hne, if_false]
            refine ih (attempt + 1) (current_delay * backoff_factor)
              (current_delay :: sleeps) (calls + 1) (by omega) (by omega) ?_ ?_ (by omega)
            · rw [hdelay, pow_succ]; ring
            · rw [hsleeps, hdelay, List.range_succ, List.map_append,
                List.reverse_append]
              rfl

/-- C5: if the operation fails on every invocation before the `m`-th and
returns a non-`None` value `v` on the `m`-th, with `m ≤ max_retries`, the
wrapper returns `v`, invokes the operation `m + 1` times, and sleeps
exactly `m` times with delays `delay * backoff_factor ^ i` for
`i = 0, …, m - 1` — the geometric back-off schedule, growing without
cap.  With `m = 2` this is the claim's two-failures-then-success case:
two sleeps, `delay` then `delay * backoff_factor`. -/
theorem retry_eventual_success_sleep_schedule {α : Type} (k m : Nat) (v : α)
    (delay backoff_factor : ℚ) (f : Nat → CallOutcome α)
    (hfail : ∀ i, i < m → (f i).isOk = false) (hok : f m = .ok v) (hm : m ≤ k) :
    retry_on_failure k delay backoff_factor f
      = ⟨some v, (List.range m).map (fun i => delay * backoff_factor ^ i), m + 1⟩ := by
  unfold retry_on_failure
  refine retry_go_eventual_success f k m v delay backoff_factor hfail hok hm
    (k + 1) 0 delay [] 0 (by omega) (by omega) ?_ rfl rfl
  rw [pow_zero, mul_one]

/-- Witness for C5: an operation that raises on attempt 0, returns `None`
on attempt 1 and succeeds on attempt 2, run with `max_retries = 3`,
`delay = 1`, `backoff_factor = 2`: the success result, sleeps `[1, 2]`,
3 invocations. -/
theorem retry_eventual_success_sleep_schedule_witness :
    retry_on_failure 3 1 2 (fun i =>
        if i = 0 then CallOutcome.exn
        else if i = 1 then CallOutcome.nil
        else CallOutcome.ok okText)
      = ⟨some okText, (List.range 2).map (fun i => (1 : ℚ) * 2 ^ i), 3⟩ :=
  retry_eventual_success_sleep_schedule 3 2 okText 1 2 _
    (by decide) rfl (by decide)

/-- C10: the synchronous `retry_on_failure` wrapper applied to an
`async def` such as `chat_completion` sees the coroutine object as an
immediate non-`None` success: exactly one invocation, zero sleeps, the
coroutine returned as the result on the first attempt — for every
`max_retries`, every delay configuration and every eventual awaited
outcome `co`, including `co = Except.error e`, so exceptions raised while
awaiting bypass the retrier entirely and the back-off policy never takes
effect for asynchronous operations. -/
theorem async_wrapper_single_call_no_retry {α : Type} (k : Nat)
    (delay backoff_factor : ℚ) (co : Coroutine α) :
    retry_on_failure k delay backoff_factor (fun _ => call_coroutine_function co)
      = ⟨some co, [], 1⟩ :=
  rfl

/-- A nonempty `pyRangeStepAux` run starts below its stop value. -/
theorem pyRangeStepAux_ne_nil {fuel start stop step : Nat}
    (h : pyRangeStepAux fuel start stop step ≠ []) : start < stop := by
  match fuel with
  | 0 => exact absurd rfl h
  | fuel + 1 =>
      by_cases hlt : start < stop
      · exact hlt
      · exact absurd (by unfold pyRangeStepAux; rw [if_neg hlt]) h

/-- Joining the index ranges of the batches started from `s` recovers the
contiguous range `[s, N)`, whenever the fuel covers the remaining lines. -/
theorem pyRange_flatten (N B : Nat) (hB : 1 ≤ B) :
    ∀ fuel s, N ≤ s + fuel →
      ((pyRangeStepAux fuel s N B).map (batch_index_range N B)).flatten
        = List.range' s (N - s) := by
  intro fuel
  induction fuel with
  | zero =>
      intro s h
      have : N - s = 0 := by omega
      rw [this]
      rfl
  | succ fuel ih =>
      intro s h
      unfold pyRangeStepAux
      by_cases hlt : s < N
      · rw [if_pos hlt, List.map_cons, List.flatten_cons,
          ih (s + B) (by omega)]
        unfold batch_index_range
        rcases le_or_lt (s + B) N with hfit | hshort
        · have h1 : min (s + B) N = s + B := by omega
          rw [h1]
          have h2 := List.range'_append s (s + B - s) (N - (s + B)) 1
          simp only [one_mul, Nat.mul_one] at h2
          have h3 : s + (s + B - s) = s + B := by omega
          rw [h3] at h2
          rw [h2]
          congr 1
          omega
        · have h1 : min (s + B) N = N := by omega
          have h2 : N - (s + B) = 0 := by omega
          rw [h1, h2]
          simp
      · rw [if_neg hlt]
        have : N - s = 0 := by omega
        rw [this]
        rfl

/-- The number of batches started from `s` is the ceiling of the number
of remaining lines divided by the batch size. -/
theorem pyRange_length (N B : Nat) (hB : 1 ≤ B) :
    ∀ fuel s, N ≤ s + fuel →
      (pyRangeStepAux fuel s N B).length = (N - s + B - 1) / B := by
  intro fuel
  induction fuel with
  | zero =>
      intro s h
      have h1 : N - s = 0 := by omega
      unfold pyRangeStepAux
      rw [List.length_nil, h1, Nat.zero_add]
      exact (Nat.div_eq_of_lt (by omega)).symm
  | succ fuel ih =>
      intro s h
      unfold pyRangeStepAux
      by_cases hlt : s < N
      · rw [if_pos hlt, List.length_cons, ih (s + B) (by omega)]
        rcases le_or_lt (s + B) N with hfit | hshort
        · have h1 : N - (s + B) + B - 1 = N - s - 1 := by omega
          have h2 : N - s + B - 1 = (N - s - 1) + B := by omega
          rw [h1, h2, Nat.add_div_right _ (by omega)]
        · have h1 : N - (s + B) = 0 := by omega
          have h2 : (0 + B - 1) / B = 0 := Nat.div_eq_of_lt (by omega)
          rw [h1, h2]
          have h3 : N - s + B - 1 = (N - s - 1) + B := by omega
          rw [h3, Nat.add_div_right _ (by omega), Nat.div_eq_of_lt (by omega)]
      · rw [if_neg hlt]
        have h1 : N - s = 0 := by omega
        rw [List.length_nil, h1, Nat.zero_add]
        exact (Nat.div_eq_of_lt (by omega)).symm

/-- Every batch except possibly the last one has exactly `B` items. -/
theorem pyRange_sizes (N B : Nat) (hB : 1 ≤ B) :
    ∀ fuel s, N ≤ s + fuel →
      ∀ x ∈ ((pyRangeStepAux fuel s N B).map
          (fun t => min (t + B) N - t)).dropLast, x = B := by
  intro fuel
  induction fuel with
  | zero => intro s _ x hx; exact absurd hx (by simp [pyRangeStepAux])
  | succ fuel ih =>
      intro s h x hx
      unfold pyRangeStepAux at hx
      by_cases hlt : s < N
      · rw [if_pos hlt, List.map_cons] at hx
        match hrest : pyRangeStepAux fuel (s + B) N B with
        | [] => rw [hrest] at hx; exact absurd hx (by simp)
        | r :: rs =>
            rw [hrest] at hx
            have hnext : s + B < N :=
              @pyRangeStepAux_ne_nil fuel (s + B) N B (by rw [hrest]; simp)
            rw [List.dropLast_cons_of_ne_nil (by simp)] at hx
            rcases List.mem_cons.mp hx with hhead | htail
            · rw [hhead]
              omega
            · have := ih (s + B) (by omega) x
              rw [hrest] at this
              exact this htail
      · rw [if_neg hlt] at hx
        exact absurd hx (by simp)

/-- C6: for every line count `N` and batch size `B ≥ 1`, the batching
loop produces exactly `⌈N / B⌉` batches; their index ranges, concatenated
in order, are exactly `[0, N)` — no gaps, no overlaps, every line in
exactly one batch — and every batch except possibly the last has exactly
`B` items. -/
theorem build_batches_partition (N B : Nat) (hB : 1 ≤ B) :
    (batch_starts N B).length = (N + B - 1) / B
    ∧ ((batch_starts N B).map (batch_index_range N B)).flatten = List.range N
    ∧ ∀ x ∈ ((batch_starts N B).map
        (fun t => min (t + B) N - t)).dropLast, x = B := by
  refine ⟨?_, ?_, ?_⟩
  · have h := pyRange_length N B hB (N - 0) 0 (by omega)
    unfold batch_starts pyRange3
    rw [h, Nat.sub_zero]
  · have h := pyRange_flatten N B hB (N - 0) 0 (by omega)
    simp only [Nat.sub_zero] at h
    unfold batch_starts pyRange3
    rw [Nat.sub_zero, h, List.range_eq_range']
  · exact pyRange_sizes N B hB (N - 0) 0 (by omega)

/-- Witness for C6 at `N = 7`, `B = 3`: three batches whose index ranges
concatenate to `[0, 7)`. -/
theorem build_batches_partition_witness :
    (batch_starts 7 3).length = (7 + 3 - 1) / 3
    ∧ ((batch_starts 7 3).map (batch_index_range 7 3)).flatten = List.range 7 :=
  ⟨(build_batches_partition 7 3 (by decide)).1,
    (build_batches_partition 7 3 (by decide)).2.1⟩

/-- C7: for a batch starting at a valid index `s` of a line sequence of
length `L`, with end index `e = min(s + batch_size, L)`:
`context_before` is exactly the `min s 2` line texts immediately
preceding index `s` (so length 2 when `s > 1` and length `s` when
`s ∈ {0, 1}`), and `context_after` is exactly the `min (L - e) 2` line
texts immediately following index `e`. -/
theorem context_window_exact (subtitles : List Subtitle)
    (start_index batch_size : Nat)
    (hs : start_index ≤ subtitles.length) :
    (format_translation_prompt_with_context subtitles start_index batch_size).context_before
        = (((subtitles.take start_index).drop (start_index - 2)).map Subtitle.text)
    ∧ (format_translation_prompt_with_context subtitles start_index batch_size).context_before.length
        = min start_index 2
    ∧ (1 < start_index →
        (format_translation_prompt_with_context subtitles start_index batch_size).context_before.length = 2)
    ∧ (start_index ≤ 1 →
        (format_translation_prompt_with_context subtitles start_index batch_size).context_before.length
          = start_index)
    ∧ (format_translation_prompt_with_context subtitles start_index batch_size).context_after
        = ((subtitles.drop (min (start_index + batch_size) subtitles.length)).take 2).map
            Subtitle.text
    ∧ (format_translation_prompt_with_context subtitles start_index batch_size).context_after.length
        = min (subtitles.length - min (start_index + batch_size) subtitles.length) 2 := by
  have hbs : (max 0 ((start_index : Int) - 2)).toNat = start_index - 2 := by omega
  have hbefore :
      (format_translation_prompt_with_context subtitles start_index batch_size).context_before
        = (((subtitles.take start_index).drop (start_index - 2)).map Subtitle.text) := by
    show (List.range' ((max 0 ((start_index : Int) - 2)).toNat)
        (start_index - (max 0 ((start_index : Int) - 2)).toNat)).map
          (fun i => (subtitles.getD i default).text)
        = ((subtitles.take start_index).drop (start_index - 2)).map Subtitle.text
    rw [hbs]
    have h1 : (fun i => (subtitles.getD i default).text)
        = Subtitle.text ∘ (fun i => subtitles.getD i default) := rfl
    rw [h1, ← List.map_map, map_range'_getD subtitles default _ _ (by omega)]
    rw [List.drop_take]
  have hafter :
      (format_translation_prompt_with_context subtitles start_index batch_size).context_after
        = ((subtitles.drop (min (start_index + batch_size) subtitles.length)).take 2).map
            Subtitle.text := by
    show (List.range' (min (start_index + batch_size) subtitles.length)
        (min subtitles.length (min (start_index + batch_size) subtitles.length + 2)
          - min (start_index + batch_size) subtitles.length)).map
          (fun i => (subtitles.getD i default).text)
        = ((subtitles.drop (min (start_index + batch_size) subtitles.length)).take 2).map
            Subtitle.text
    have h1 : (fun i => (subtitles.getD i default).text)
        = Subtitle.text ∘ (fun i => subtitles.getD i default) := rfl
    rw [h1, ← List.map_map, map_range'_getD subtitles default _ _ (by omega)]
    congr 1
    rw [List.take_eq_take, List.length_drop]
    omega
  refine ⟨hbefore, ?_, ?_, ?_, hafter, ?_⟩
  · rw [hbefore]
    simp
    omega
  · intro h2
    rw [hbefore]
    simp
    omega
  · intro h2
    rw [hbefore]
    simp
    omega
  · rw [hafter]
    simp
    omega

/-- Witness for C7 at a batch starting at index 3 of a 5-line file with
batch size 1: `context_before` is the slice of the two preceding texts
(length `min 3 2 = 2`) and `context_after` the one following text. -/
theorem context_window_exact_witness :
    3 ≤ sampleSubtitles.length
    ∧ (format_translation_prompt_with_context sampleSubtitles 3 1).context_before
        = (((sampleSubtitles.take 3).drop (3 - 2)).map Subtitle.text)
    ∧ (format_translation_prompt_with_context sampleSubtitles 3 1).context_before.length
        = min 3 2
    ∧ (format_translation_prompt_with_context sampleSubtitles 3 1).context_after
        = ((sampleSubtitles.drop (min (3 + 1) sampleSubtitles.length)).take 2).map
            Subtitle.text
    ∧ (format_translation_prompt_with_context sampleSubtitles 3 1).context_after.length
        = min (sampleSubtitles.length - min (3 + 1) sampleSubtitles.length) 2 :=
  have h := context_window_exact sampleSubtitles 3 1 (by decide)
  ⟨by decide, h.1, h.2.1, h.2.2.2.2.1, h.2.2.2.2.2⟩

/-- C3 (amended): when the awaited body of an admitted task raises, the
exception propagates, `completed` is never set, `error` and `result` are
never populated — so `get_result` on that id with no timeout polls
forever — but the semaphore slot **is** released (the `async with` exit
handler runs on the exception path), so `free` returns to its
pre-admission value and no unit of concurrency is lost. -/
theorem execute_task_error_never_completes {α ε : Type} (e : ε)
    (s : ExecState α ε) (hfree : 0 < s.free) :
    (execute_task (Except.error e) s).1 = Except.error e
    ∧ (execute_task (Except.error e) s).2.completed = s.completed
    ∧ (execute_task (Except.error e) s).2.error = s.error
    ∧ (execute_task (Except.error e) s).2.result = s.result
    ∧ (execute_task (Except.error e) s).2.free = s.free
    ∧ ∀ fuel k, get_result_loop (fun _ => false) none fuel k = none := by
  refine ⟨rfl, rfl, rfl, rfl, ?_, ?_⟩
  · show s.free - 1 + 1 = s.free
    omega
  · intro fuel
    induction fuel with
    | zero => intro k; rfl
    | succ fuel ih =>
        intro k
        show get_result_loop (fun _ => false) none fuel (k + 1) = none
        exact ih (k + 1)

/-- Counterexample to C3 as stated: with two free slots and a body that
raises, the semaphore count after `_execute_task` is back at 2, not 1 —
the admitted slot **is** released on the exception path (while
`completed` indeed stays false). -/
theorem execute_task_error_slot_released_counterexample :
    (execute_task (Except.error boomText)
        (⟨2, none, none, false⟩ : ExecState String String)).2.free = 2
    ∧ (execute_task (Except.error boomText)
        (⟨2, none, none, false⟩ : ExecState String String)).2.completed = false := by
  decide

/-- Witness for the amended C3 at a concrete failing task with one free
slot: fields untouched, slot back at 1, and a 100-step observation of the
timeout-less poll loop still running. -/
theorem execute_task_error_never_completes_witness :
    (execute_task (Except.error oopsText)
        (⟨1, none, none, false⟩ : ExecState String String)).1 = Except.error oopsText
    ∧ (execute_task (Except.error oopsText)
        (⟨1, none, none, false⟩ : ExecState String String)).2.completed = false
    ∧ (execute_task (Except.error oopsText)
        (⟨1, none, none, false⟩ : ExecState String String)).2.error = none
    ∧ (execute_task (Except.error oopsText)
        (⟨1, none, none, false⟩ : ExecState String String)).2.result = none
    ∧ (execute_task (Except.error oopsText)
        (⟨1, none, none, false⟩ : ExecState String String)).2.free = 1
    ∧ get_result_loop (fun _ => false) none 100 0 = none :=
  have h := execute_task_error_never_completes oopsText
    (⟨1, none, none, false⟩ : ExecState String String) (by decide)
  ⟨h.1, h.2.1, h.2.2.1, h.2.2.2.1, h.2.2.2.2.1, h.2.2.2.2.2 100 0⟩

/-- With a positive timeout `T`, a task that is still incomplete at every
check up to the first one past `T` makes the polling loop return the
timeout `None`. -/
theorem get_result_loop_times_out (completedAt : Nat → Bool) (T : ℚ) (K : Nat)
    (hT : 0 < T) (hK : T < (K : ℚ) * pollInterval)
    (hnc : ∀ k, k ≤ K → completedAt k = false) :
    ∀ fuel k, k ≤ K → K + 1 ≤ k + fuel →
      get_result_loop completedAt (some T) fuel k = some PollOutcome.timedOut := by
  intro fuel
  induction fuel with
  | zero => intro k hk hfuel; omega
  | succ fuel ih =>
      intro k hk hfuel
      unfold get_result_loop
      rw [hnc k hk]
      simp only [Bool.false_eq_true, if_false]
      cases htrig : timeout_triggered (some T) ((k : ℚ) * pollInterval) with
      | true => simp
      | false =>
          simp only [Bool.false_eq_true, if_false]
          have hT0 : ¬ T = 0 := ne_of_gt hT
          have hkT : ¬ (T < (k : ℚ) * pollInterval) := by
            simp only [timeout_triggered, if_neg hT0] at htrig
            simpa using htrig
          have hp : (0 : ℚ) < pollInterval := by norm_num [pollInterval]
          have hkK : k < K := by
            have hlt : (k : ℚ) * pollInterval < (K : ℚ) * pollInterval :=
              lt_of_le_of_lt (le_of_not_lt hkT) hK
            have : (k : ℚ) < (K : ℚ) := (mul_lt_mul_right hp).mp hlt
            exact_mod_cast this
          exact ih (k + 1) (by omega) (by omega)

/-- C8: an `await_result`/`get_result` call with a positive timeout `T`
returns `None` when the task is still incomplete at every check up to the
first one past `T`; the work item is not cancelled — polling is
read-only, the operation keeps running and can still set `completed` at
some later instant `m` — and a subsequent `get_result` call on the same
id, started once `completed` is set, returns the task at its very first
check. -/
theorem await_result_timeout_not_cancelled (completedAt : Nat → Bool)
    (T : ℚ) (K m : Nat) (hT : 0 < T) (hK : T < (K : ℚ) * pollInterval)
    (hnc : ∀ k, k ≤ K → completedAt k = false) (hm : completedAt m = true) :
    get_result_loop completedAt (some T) (K + 1) 0 = some PollOutcome.timedOut
    ∧ get_result_loop (fun j => completedAt (m + j)) (some T) 1 0
        = some PollOutcome.gotTask := by
  constructor
  · exact get_result_loop_times_out completedAt T K hT hK hnc (K + 1) 0
      (by omega) (by omega)
  · unfold get_result_loop
    have h0 : completedAt (m + 0) = true := by simpa using hm
    rw [h0]
    rfl

/-- Witness for C8: a task completing at check 10 (1.0 s), awaited with
timeout 0.5 s: the first call times out by check 6 (0.6 s > 0.5 s), a
second call started after completion succeeds immediately. -/
theorem await_result_timeout_not_cancelled_witness :
    get_result_loop (fun k => decide (10 ≤ k)) (some (1 / 2)) (6 + 1) 0
        = some PollOutcome.timedOut
    ∧ get_result_loop (fun j => decide (10 ≤ 10 + j)) (some (1 / 2)) 1 0
        = some PollOutcome.gotTask :=
  await_result_timeout_not_cancelled (fun k => decide (10 ≤ k)) (1 / 2) 6 10
    (by norm_num) (by norm_num [pollInterval]) (by decide) (by decide)

/-- One gate transition conserves `free + running`. -/
theorem sem_step_preserves (N : Nat) (a b : SemState) (hstep : SemStep a b)
    (hab : a.free + a.running = N) : b.free + b.running = N := by
  cases hstep with
  | acquire h =>
      show a.free - 1 + (a.running + 1) = N
      omega
  | release h =>
      show a.free + 1 + (a.running - 1) = N
      omega

/-- The gate conserves `free + running = N` along every reachable run. -/
theorem sem_invariant (N : Nat) (s : SemState) (h : SemReachable N s) :
    s.free + s.running = N := by
  induction h with
  | refl => rfl
  | tail _ hstep ih => exact sem_step_preserves N _ _ hstep ih

/-- C9: for every configured worker budget `N`, in every reachable state
of the admission gate at most `N` operation bodies are executing
concurrently; and when no slot is free, no step can admit a new body —
the only possible transition is a release, so additionally submitted
operations queue until a slot frees. -/
theorem bounded_executor_never_exceeds (N : Nat) :
    (∀ s, SemReachable N s → s.running ≤ N)
    ∧ (∀ s t, s.free = 0 → SemStep s t → t.running < s.running) := by
  constructor
  · intro s h
    have := sem_invariant N s h
    omega
  · intro s t h0 hstep
    cases hstep with
    | acquire hfree => omega
    | release hrun =>
        show s.running - 1 < s.running
        omega

/-- Witness for C9 with budget 1: the state after one admission has
`running = 1 ≤ 1`, and from a full gate `⟨0, 2⟩` the only step is a
release, strictly decreasing `running`. -/
theorem bounded_executor_never_exceeds_witness :
    (⟨0, 1⟩ : SemState).running ≤ 1
    ∧ (⟨1, 1⟩ : SemState).running < (⟨0, 2⟩ : SemState).running :=
  ⟨(bounded_executor_never_exceeds 1).1 ⟨0, 1⟩
      (Relation.ReflTransGen.single (SemStep.acquire ⟨1, 0⟩ (by decide))),
    (bounded_executor_never_exceeds 1).2 ⟨0, 2⟩ ⟨1, 1⟩ rfl
      (SemStep.release ⟨0, 2⟩ (by decide))⟩
